import Mathlib

/-!
Shallow embedding of `src/turing.py` (a Turing machine simulator):
the line parser `parse_turing_machine` (built around the Python regex
`([^#]+),(.):(?:([^<>]|[<>](?=,[<>])),)?(?:([<>]),)?(?!\s*$)([^#]+)`
used with `re.match`) and the simulation loop `simulate_turing_machine`.
Lines are modelled as `List Char`; Python's `re.match` backtracking
semantics is implemented directly (greedy groups, tried longest first,
with the exact alternation/option order of the pattern).
-/

namespace TuringSim

/-- `c` is one of the two direction characters of the grammar. -/
def isAngle (c : Char) : Bool := c == '<' || c == '>'

/-- Python's notion of whitespace for `str.strip` and the regex class `\s`
(ASCII part, which is all that can occur here). -/
def pyIsSpace (c : Char) : Bool :=
  c == ' ' || c == '\t' || c == '\n' || c == '\r' || c == '\x0b' || c == '\x0c'

/-- Python `str.strip()`: drop whitespace at both ends. -/
def pyStrip (l : List Char) : List Char :=
  ((l.dropWhile pyIsSpace).reverse.dropWhile pyIsSpace).reverse

/-- Python `str.rstrip()`: drop trailing whitespace. -/
def pyRstrip (l : List Char) : List Char :=
  (l.reverse.dropWhile pyIsSpace).reverse

/-- `l` consists of whitespace only (this is what the lookahead `\s*$`
of the regex recognises, since there is no embedded newline in a line). -/
def allWhitespace (l : List Char) : Bool := l.all pyIsSpace

/-- The final part `(?!\s*$)([^#]+)` of the regex: at the current position the
remainder must not be whitespace-only, and group 5 greedily takes the maximal
nonempty run of non-`#` characters (`re.match` does not require reaching the
end of the line). Returns group 5. -/
def matchTail3 (r : List Char) : Option (List Char) :=
  if allWhitespace r then none
  else
    let g5 := r.takeWhile (fun c => !(c == '#'))
    if g5.isEmpty then none else some g5

/-- The part `(?:([<>]),)?(?!\s*$)([^#]+)` of the regex: the optional
direction group is tried first (the `?` is greedy) and the engine backtracks
to skipping it if the rest then fails. Returns (group 4, group 5). -/
def matchTail2 (r : List Char) : Option (Option Char × List Char) :=
  match r with
  | d :: c2 :: r2 =>
      if isAngle d && c2 == ',' then
        match matchTail3 r2 with
        | some g5 => some (some d, g5)
        | none => (matchTail3 r).map (fun g5 => (none, g5))
      else (matchTail3 r).map (fun g5 => (none, g5))
  | _ => (matchTail3 r).map (fun g5 => (none, g5))

/-- The part after the colon,
`(?:([^<>]|[<>](?=,[<>])),)?(?:([<>]),)?(?!\s*$)([^#]+)`: the optional
symbol-out group tries its two alternatives in order — a non-angle character,
or an angle character whose lookahead requires the next two characters to be
`,` then `<` or `>` — each followed by `,`; on failure of the rest the engine
backtracks to skipping the group. Returns (group 3, group 4, group 5). -/
def matchTail1 (r : List Char) : Option (Option Char × Option Char × List Char) :=
  match r with
  | c :: c2 :: r2 =>
      if c2 == ',' then
        if !(isAngle c) then
          match matchTail2 r2 with
          | some (mv, g5) => some (some c, mv, g5)
          | none => (matchTail2 r).map (fun p => (none, p.1, p.2))
        else
          match r2 with
          | d :: _ =>
              if isAngle d then
                match matchTail2 r2 with
                | some (mv, g5) => some (some c, mv, g5)
                | none => (matchTail2 r).map (fun p => (none, p.1, p.2))
              else (matchTail2 r).map (fun p => (none, p.1, p.2))
          | [] => (matchTail2 r).map (fun p => (none, p.1, p.2))
      else (matchTail2 r).map (fun p => (none, p.1, p.2))
  | _ => (matchTail2 r).map (fun p => (none, p.1, p.2))

/-- The five capture groups of a successful match of the rule-line regex:
`state_in`, `symbol_in`, optional `symbol_out`, optional `movement`
(direction), and the raw `state_out` (before the Python code right-strips
it). -/
structure ParsedRule where
  state_in : List Char
  symbol_in : Char
  symbol_out : Option Char
  movement : Option Char
  state_out_raw : List Char
  deriving DecidableEq, Repr

/-- One backtracking attempt of the whole pattern with group 1 of length
exactly `m`: group 1 is the first `m` characters, must contain no `#`
(the class `[^#]`), and must be followed by `,`, any single non-newline
character (the `.` of the regex), `:`, and a tail matching the rest of the
pattern. -/
def tryAt (s : List Char) (m : Nat) : Option ParsedRule :=
  let g1 := s.take m
  if g1.all (fun c => !(c == '#')) then
    match s.drop m with
    | c1 :: c :: c3 :: tail =>
        if c1 == ',' && c3 == ':' && !(c == '\n') then
          (matchTail1 tail).map (fun p =>
            { state_in := g1, symbol_in := c, symbol_out := p.1,
              movement := p.2.1, state_out_raw := p.2.2 })
        else none
    | _ => none
  else none

/-- Backtracking over the greedy group 1 `([^#]+)`: try group-1 lengths
`k`, `k-1`, ..., `1` in that order (the greedy `+` matches as much as
possible first and backtracks). -/
def tryG1 (s : List Char) : Nat → Option ParsedRule
  | 0 => none
  | k + 1 =>
      match tryAt s (k + 1) with
      | some r => some r
      | none => tryG1 s k

/-- `regex.match(lin)` for the rule-line regex of `parse_turing_machine`
(the `re.IGNORECASE` flag is irrelevant: the pattern contains no cased
literal). `none` models a failed match (Python `None`). -/
def regexMatch (s : List Char) : Option ParsedRule := tryG1 s s.length

/-- Convenience: the character list of a string literal. -/
def str (s : String) : List Char := s.data

/-- A transition-table key `(state_in, symbol_in)`. -/
abbrev TKey := List Char × Char

/-- A transition-table value `(symbol_out, movement, state_out)`; the
movement is `none` when the direction field was absent (Python `None`),
in which case the head stays in place. -/
abbrev TVal := Char × Option Char × List Char

/-- Insert into a list acting as a set (Python `set.update`): membership is
what matters, duplicates are not added. -/
def insertNew (x : List Char) (l : List (List Char)) : List (List Char) :=
  if l.contains x then l else l ++ [x]

/-- Insert a character into a list acting as a set. -/
def insertNewC (x : Char) (l : List Char) : List Char :=
  if l.contains x then l else l ++ [x]

/-- Python dict assignment `transitions[key] = val`: replace the value in
place if the key is present, else append the binding. -/
def insertTrans (k : TKey) (v : TVal) : List (TKey × TVal) → List (TKey × TVal)
  | [] => [(k, v)]
  | p :: rest => if p.1 == k then (k, v) :: rest else p :: insertTrans k v rest

/-- Python `key in transitions` / `transitions[key]`. -/
def lookupT (tr : List (TKey × TVal)) (k : TKey) : Option TVal :=
  (tr.find? (fun p => p.1 == k)).map (fun p => p.2)

/-- The mutable state threaded through the parsing loop of
`parse_turing_machine`: the `states` and `alphabet` sets, the
`initial_state` variable (unassigned, i.e. `none`, until the first rule),
the `transitions` dict, and the duplicate-transition warnings printed to
stderr, each recorded as (1-based line number, key). -/
structure ParseState where
  states : List (List Char)
  alphabet : List Char
  initial_state : Option (List Char)
  transitions : List (TKey × TVal)
  warnings : List (Nat × TKey)
  deriving DecidableEq, Repr

/-- The parse state before any line is read. -/
def initParseState : ParseState :=
  { states := [], alphabet := [], initial_state := none,
    transitions := [], warnings := [] }

/-- One iteration of the `for lineno, line in enumerate(f)` loop of
`parse_turing_machine`, at 1-based line number `n`: strip the line, skip it
when blank or starting with `#`, otherwise match the regex — on failure the
program prints a syntax error naming line `n` and exits with code 1
(modelled `Except.error n`); on success record the initial state when the
`states` set is still empty, default `symbol_out` to `symbol_in`, update the
sets, warn on a duplicate key, and store the transition. -/
def processLine (st : ParseState) (n : Nat) (line : List Char) :
    Except Nat ParseState :=
  let lin := pyStrip line
  if lin.isEmpty then .ok st
  else if lin.headD ' ' == '#' then .ok st
  else
    match regexMatch lin with
    | none => .error n
    | some r =>
        let state_out := pyRstrip r.state_out_raw
        let initial := if st.states.isEmpty then some r.state_in
                       else st.initial_state
        let symbol_out := r.symbol_out.getD r.symbol_in
        let key : TKey := (r.state_in, r.symbol_in)
        let warnings := if (lookupT st.transitions key).isSome
                        then st.warnings ++ [(n, key)] else st.warnings
        .ok { states := insertNew state_out (insertNew r.state_in st.states),
              alphabet := insertNewC symbol_out (insertNewC r.symbol_in st.alphabet),
              initial_state := initial,
              transitions := insertTrans key (symbol_out, r.movement, state_out)
                st.transitions,
              warnings := warnings }

/-- The parsing loop over the remaining lines, `n` the 1-based number of the
first of them; aborts with the line number of the first syntax error. -/
def parseLines (st : ParseState) (n : Nat) :
    List (List Char) → Except Nat ParseState
  | [] => .ok st
  | l :: ls =>
      match processLine st n l with
      | .error e => .error e
      | .ok st2 => parseLines st2 (n + 1) ls

/-- `parse_turing_machine` on the lines of the description file: run the
parsing loop from the empty state, then discard the blank symbol from the
reported alphabet (`alphabet.discard(" ")`). The returned record carries
the `(alphabet, states, initial_state, transitions)` the Python function
returns, plus the warnings it printed. -/
def parse_turing_machine (lines : List (List Char)) : Except Nat ParseState :=
  match parseLines initParseState 1 lines with
  | .error e => .error e
  | .ok st => .ok { st with alphabet := st.alphabet.filter (fun c => !(c == ' ')) }

/-- The rule of the first non-blank, non-comment line, as the regex parses
it: the positional convention the file format uses for the initial state. -/
def firstValidRule : List (List Char) → Option ParsedRule
  | [] => none
  | l :: ls =>
      if (pyStrip l).isEmpty then firstValidRule ls
      else if (pyStrip l).headD ' ' == '#' then firstValidRule ls
      else regexMatch (pyStrip l)

/-- A configuration of the simulation loop: current state, the tape (a
Python deque of single characters), and the head index. The index is an
integer because Python lets it reach `-1` transiently before the
grow-left correction. -/
structure TMConfig where
  state : List Char
  tape : List Char
  idx : Int
  deriving DecidableEq, Repr

/-- One iteration of the `while` loop of `simulate_turing_machine`:
`none` when `(current_state, tape[current_index])` has no entry — the
loop exits — otherwise the configuration after writing the output symbol,
moving the head, and growing the tape at whichever end was overrun. -/
def stepTM (tr : List (TKey × TVal)) (c : TMConfig) : Option TMConfig :=
  match lookupT tr (c.state, c.tape.getD c.idx.toNat ' ') with
  | none => none
  | some (out, mv, nxt) =>
      let t1 := c.tape.set c.idx.toNat out
      let i1 : Int := if mv == some '>' then c.idx + 1
                      else if mv == some '<' then c.idx - 1
                      else c.idx
      if i1 < 0 then some { state := nxt, tape := ' ' :: t1, idx := 0 }
      else if i1 = t1.length then
        some { state := nxt, tape := t1 ++ [' '], idx := i1 }
      else some { state := nxt, tape := t1, idx := i1 }

/-- Run the simulation loop with step budget `fuel`: `some` the halting
configuration when the loop exits within the budget, `none` otherwise
(the Python loop is unbounded; every claim about it concerns halting
runs). -/
def runTM (tr : List (TKey × TVal)) : Nat → TMConfig → Option TMConfig
  | 0, c => match stepTM tr c with | none => some c | some _ => none
  | n + 1, c =>
      match stepTM tr c with
      | none => some c
      | some c2 => runTM tr n c2

/-- The first trimming loop after the simulation: pop trailing blanks. -/
def dropTrailingBlanks (t : List Char) : List Char :=
  (t.reverse.dropWhile (fun c => c == ' ')).reverse

/-- Both trimming loops: pop trailing blanks, then pop leading blanks. -/
def trimTape (t : List Char) : List Char :=
  (dropTrailingBlanks t).dropWhile (fun c => c == ' ')

/-- `simulate_turing_machine` with step budget `fuel`: on an empty tape
return `(initial_state, [])` at once (no lookup); otherwise run the loop
from head position 0 and trim blanks from both ends of the final tape. -/
def simulate_turing_machine (fuel : Nat) (tape : List Char)
    (initial_state : List Char) (tr : List (TKey × TVal)) :
    Option (List Char × List Char) :=
  if tape.isEmpty then some (initial_state, [])
  else
    match runTM tr fuel { state := initial_state, tape := tape, idx := 0 } with
    | none => none
    | some c => some (c.state, trimTape c.tape)

/-! Helper lemmas about `dropWhile`, shared by the trimming results. -/

lemma dropWhile_head_false {α : Type} {p : α → Bool} {l : List α} {x : α}
    {xs : List α} (h : l.dropWhile p = x :: xs) : p x = false := by
  induction l with
  | nil => simp [List.dropWhile] at h
  | cons a as ih =>
      rw [List.dropWhile_cons] at h
      by_cases hpa : p a = true
      · exact ih (by simpa [hpa] using h)
      · have hb : p a = false := by simpa using hpa
        simp [hb] at h
        rw [← h.1]; exact hb

lemma dropWhile_dropWhile {α : Type} (p : α → Bool) (l : List α) :
    (l.dropWhile p).dropWhile p = l.dropWhile p := by
  cases h : l.dropWhile p with
  | nil => simp
  | cons x xs =>
      have hx : p x = false := dropWhile_head_false h
      simp [List.dropWhile_cons, hx]

lemma dropWhile_length_le {α : Type} (p : α → Bool) :
    ∀ l : List α, (l.dropWhile p).length ≤ l.length := by
  intro l
  induction l with
  | nil => simp
  | cons a as ih =>
      rw [List.dropWhile_cons]
      by_cases hpa : p a = true
      · rw [if_pos hpa]
        exact Nat.le_trans ih (by simp)
      · rw [if_neg hpa]

lemma dropWhile_cons_self {α : Type} (p : α → Bool) (y : α) (t : List α)
    (h : List.dropWhile p (y :: t) = y :: t) : p y = false := by
  by_cases hpy : p y = true
  · rw [List.dropWhile_cons, if_pos hpy] at h
    have hlen := dropWhile_length_le p t
    rw [h] at hlen
    simp at hlen
  · simpa using hpy

lemma trimTape_idem (t : List Char) : trimTape (trimTape t) = trimTape t := by
  have hu : (dropTrailingBlanks t).takeWhile (fun c => c == ' ') ++
      trimTape t = dropTrailingBlanks t := by
    unfold trimTape
    exact List.takeWhile_append_dropWhile _ _
  have hF : (dropTrailingBlanks t).reverse.dropWhile (fun c => c == ' ') =
      (dropTrailingBlanks t).reverse := by
    unfold dropTrailingBlanks
    rw [List.reverse_reverse]
    exact dropWhile_dropWhile _ _
  have h5 : (trimTape t).reverse.dropWhile (fun c => c == ' ') =
      (trimTape t).reverse := by
    cases hyys : (trimTape t).reverse with
    | nil => rfl
    | cons y ys =>
        rw [← hu, List.reverse_append, hyys, List.cons_append] at hF
        have hby := dropWhile_cons_self (fun c => c == ' ') y
          (ys ++ (List.takeWhile (fun c => c == ' ')
            (dropTrailingBlanks t)).reverse) hF
        rw [List.dropWhile_cons, if_neg (by simp [hby])]
  have step1 : trimTape (trimTape t) =
      ((trimTape t).reverse.dropWhile (fun c => c == ' ')).reverse.dropWhile
        (fun c => c == ' ') := rfl
  rw [step1, h5, List.reverse_reverse]
  exact dropWhile_dropWhile (fun c => c == ' ') (dropTrailingBlanks t)

/-- C7: after the simulation halts the tape is trimmed by stripping all
trailing blanks, then all leading blanks: the original tape is the trimmed
tape surrounded by an all-blank prefix and an all-blank suffix (so no
interior blank is removed), and trimming twice yields the same tape as
trimming once. -/
theorem claim_C7 (t : List Char) :
    (∃ p s, (∀ c ∈ p, c = ' ') ∧ (∀ c ∈ s, c = ' ') ∧
      t = p ++ trimTape t ++ s) ∧
    trimTape (trimTape t) = trimTape t := by
  constructor
  · refine ⟨(dropTrailingBlanks t).takeWhile (fun c => c == ' '),
      (t.reverse.takeWhile (fun c => c == ' ')).reverse, ?_, ?_, ?_⟩
    · intro c hc
      have := List.mem_takeWhile_imp hc
      simpa using this
    · intro c hc
      rw [List.mem_reverse] at hc
      have := List.mem_takeWhile_imp hc
      simpa using this
    · have h1 : dropTrailingBlanks t ++
          (t.reverse.takeWhile (fun c => c == ' ')).reverse = t := by
        unfold dropTrailingBlanks
        rw [← List.reverse_append, List.takeWhile_append_dropWhile,
          List.reverse_reverse]
      have h2 : (dropTrailingBlanks t).takeWhile (fun c => c == ' ') ++
          trimTape t = dropTrailingBlanks t := by
        unfold trimTape
        exact List.takeWhile_append_dropWhile _ _
      conv_lhs => rw [← h1, ← h2]
  · exact trimTape_idem t

/-- C9: on an empty initial tape the simulation returns at once with the
supplied initial state and the empty tape, for every step budget and every
transition table (so no table lookup and no tape operation takes place). -/
theorem claim_C9 (fuel : Nat) (s : List Char) (tr : List (TKey × TVal)) :
    simulate_turing_machine fuel [] s tr = some (s, []) := rfl

/-- C10: the parser accepts the line `a,,:b,q0`, whose `symbol_in` is the
comma character itself: the resulting table maps the key `("a", ",")` to
`("b", no movement, "q0")` — no syntax error is raised even though `,` is
the grammar's separator. -/
theorem claim_C10 :
    parse_turing_machine [str "a,,:b,q0"] =
      .ok { states := [str "a", str "q0"],
            alphabet := [',', 'b'],
            initial_state := some (str "a"),
            transitions := [((str "a", ','), ('b', none, str "q0"))],
            warnings := [] } := rfl

/-- C4: on the duplicate-key file `q0,a:b,>,q1` then `q0,a:c,<,q2`, the
final table keeps only the later rule for the key `("q0", "a")` and exactly
one duplicate warning is recorded, citing line 2 and that key; parsing
still succeeds. -/
theorem claim_C4 :
    parse_turing_machine [str "q0,a:b,>,q1", str "q0,a:c,<,q2"] =
      .ok { states := [str "q0", str "q1", str "q2"],
            alphabet := ['a', 'b', 'c'],
            initial_state := some (str "q0"),
            transitions := [((str "q0", 'a'), ('c', some '<', str "q2"))],
            warnings := [(2, (str "q0", 'a'))] } := rfl

/-- C6: the unary increment machine `q0,1:>,q0` and `q0, :1,qf`, as parsed
by the parser, has initial state `q0`, and simulating it on the tape `111`
halts in state `qf` with tape `1111`. -/
theorem claim_C6 :
    (parse_turing_machine [str "q0,1:>,q0", str "q0, :1,qf"]).map
      (fun st => (st.initial_state,
        simulate_turing_machine 10 (str "111") (str "q0") st.transitions)) =
    .ok (some (str "q0"), some (str "qf", str "1111")) := rfl

/-- C1 counterexample: the accepted line `q0,a:>,q1` contains a lone `>`
token after the `:` that is not followed by `,<` or `,>`, yet the parser
assigns it to the direction field (`movement`), not to `symbol_out`
(which stays absent and defaults to `symbol_in`, as the stored transition
shows) — refuting the claim as stated. -/
theorem claim_C1_counterexample :
    regexMatch (str "q0,a:>,q1") =
      some { state_in := str "q0", symbol_in := 'a', symbol_out := none,
             movement := some '>', state_out_raw := str "q1" } ∧
    parse_turing_machine [str "q0,a:>,q1"] =
      .ok { states := [str "q0", str "q1"],
            alphabet := ['a'],
            initial_state := some (str "q0"),
            transitions := [((str "q0", 'a'), ('a', some '>', str "q1"))],
            warnings := [] } := ⟨by decide, rfl⟩

/-- C2 counterexample: the accepted line `a,b,c:d,q0` is parsed with
`state_in = "a,b"` — the greedy group extends past the first `,` — so the
states set contains a name with a comma in it, refuting both halves of the
claim. -/
theorem claim_C2_counterexample :
    parse_turing_machine [str "a,b,c:d,q0"] =
      .ok { states := [str "a,b", str "q0"],
            alphabet := ['c', 'd'],
            initial_state := some (str "a,b"),
            transitions := [((str "a,b", 'c'), ('d', none, str "q0"))],
            warnings := [] } ∧
    ',' ∈ str "a,b" := ⟨rfl, by decide⟩

/-- C8: one loop iteration from any in-bounds head position stays in
bounds: when `(state, symbol under head)` has a transition, the step
succeeds and the new head index again lies in `[0, length)`; moreover a
Left move from index 0 prepends one blank and leaves the head at 0, and a
Right move off the last cell appends one blank. -/
theorem claim_C8 (tr : List (TKey × TVal)) (s0 t0 : List Char) (idx : Int)
    (out : Char) (mv : Option Char) (nxt : List Char)
    (h0 : 0 ≤ idx) (h1 : idx < (t0.length : Int))
    (hl : lookupT tr (s0, t0.getD idx.toNat ' ') = some (out, mv, nxt)) :
    ∃ c2, stepTM tr { state := s0, tape := t0, idx := idx } = some c2 ∧
      0 ≤ c2.idx ∧ c2.idx < (c2.tape.length : Int) ∧
      (mv = some '<' → idx = 0 →
        c2.tape = ' ' :: t0.set idx.toNat out ∧ c2.idx = 0) ∧
      (mv = some '>' → idx + 1 = (t0.length : Int) →
        c2.tape = t0.set idx.toNat out ++ [' '] ∧ c2.idx = idx + 1) := by
  have hset : (t0.set idx.toNat out).length = t0.length := List.length_set t0 _ _
  by_cases hgt : mv = some '>'
  · subst hgt
    have hn : ¬(idx + 1 < 0) := by omega
    have hn2 : ¬((t0.length : Int) < 0) := by omega
    by_cases heq : idx + 1 = ((t0.set idx.toNat out).length : Int)
    · rw [hset] at heq
      refine ⟨TMConfig.mk nxt (t0.set idx.toNat out ++ [' ']) (idx + 1),
        ?_, ?_, ?_, ?_, ?_⟩
      · simp only [stepTM]
        rw [hl]
        simp [hn, hn2, heq]
      · show 0 ≤ idx + 1
        omega
      · show idx + 1 < ((t0.set idx.toNat out ++ [' ']).length : Int)
        simp [hset]
        omega
      · intro hc
        exact absurd hc (by decide)
      · intro _ _
        exact ⟨rfl, rfl⟩
    · rw [hset] at heq
      refine ⟨TMConfig.mk nxt (t0.set idx.toNat out) (idx + 1),
        ?_, ?_, ?_, ?_, ?_⟩
      · simp only [stepTM]
        rw [hl]
        simp [hn, heq]
      · show 0 ≤ idx + 1
        omega
      · show idx + 1 < ((t0.set idx.toNat out).length : Int)
        rw [hset]
        omega
      · intro hc
        exact absurd hc (by decide)
      · intro _ hlen
        exact absurd hlen heq
  · by_cases hlt : mv = some '<'
    · subst hlt
      by_cases h00 : idx = 0
      · subst h00
        refine ⟨TMConfig.mk nxt (' ' :: t0.set (0 : Int).toNat out) 0,
          ?_, ?_, ?_, ?_, ?_⟩
        · simp only [stepTM]
          rw [hl]
          simp
        · show (0 : Int) ≤ 0
          omega
        · show (0 : Int) < ((' ' :: t0.set (0 : Int).toNat out).length : Int)
          simp
        · intro _ _
          exact ⟨rfl, rfl⟩
        · intro hc
          exact absurd hc (by decide)
      · have hn : ¬(idx - 1 < 0) := by omega
        have hne : ¬(idx - 1 = ((t0.length : Int))) := by omega
        refine ⟨TMConfig.mk nxt (t0.set idx.toNat out) (idx - 1),
          ?_, ?_, ?_, ?_, ?_⟩
        · simp only [stepTM]
          rw [hl]
          simp [hn, hne]
        · show 0 ≤ idx - 1
          omega
        · show idx - 1 < ((t0.set idx.toNat out).length : Int)
          rw [hset]
          omega
        · intro _ hc
          exact absurd hc h00
        · intro hc
          exact absurd hc (by decide)
    · have hn : ¬(idx < 0) := by omega
      have hne : ¬(idx = ((t0.length : Int))) := by omega
      refine ⟨TMConfig.mk nxt (t0.set idx.toNat out) idx,
        ?_, ?_, ?_, ?_, ?_⟩
      · simp only [stepTM]
        rw [hl]
        simp [hgt, hlt, hn, hne]
      · exact h0
      · show idx < ((t0.set idx.toNat out).length : Int)
        rw [hset]
        omega
      · intro hc
        exact absurd hc hlt
      · intro hc
        exact absurd hc hgt

/-- C8 witness: a Left move from head index 0 on the one-cell tape `1`
prepends a blank and leaves the head at index 0, in bounds. -/
theorem claim_C8_witness :
    ∃ c2, stepTM [((str "q0", '1'), ('1', some '<', str "q0"))]
        { state := str "q0", tape := ['1'], idx := 0 } = some c2 ∧
      0 ≤ c2.idx ∧ c2.idx < (c2.tape.length : Int) ∧
      (some '<' = some '<' → (0 : Int) = 0 →
        c2.tape = ' ' :: (['1'].set (Int.toNat 0) '1') ∧ c2.idx = 0) ∧
      (some '<' = some '>' → (0 : Int) + 1 = ((['1'] : List Char).length : Int) →
        c2.tape = ['1'].set (Int.toNat 0) '1' ++ [' '] ∧ c2.idx = (0 : Int) + 1) :=
  claim_C8 [((str "q0", '1'), ('1', some '<', str "q0"))] (str "q0") ['1'] 0
    '1' (some '<') (str "q0") (by decide) (by decide) rfl

lemma parseLines_append (xs ys : List (List Char)) :
    ∀ (st : ParseState) (n : Nat),
      parseLines st n (xs ++ ys) =
        (match parseLines st n xs with
         | .error e => .error e
         | .ok st2 => parseLines st2 (n + xs.length) ys) := by
  induction xs with
  | nil =>
      intro st n
      simp [parseLines]
  | cons x xs ih =>
      intro st n
      have hlen : n + (x :: xs).length = (n + 1) + xs.length := by
        simp [List.length_cons]
        omega
      rw [List.cons_append]
      simp only [parseLines]
      cases hp : processLine st n x with
      | error e => rfl
      | ok st2 =>
          show parseLines st2 (n + 1) (xs ++ ys) =
            (match parseLines st2 (n + 1) xs with
             | .error e => .error e
             | .ok st3 => parseLines st3 (n + (x :: xs).length) ys)
          rw [ih st2 (n + 1), hlen]

/-- C5: if every line before position `k` parses (or is skipped), and the
line at `k` is non-blank, not a comment, and fails the regex, then parsing
the whole file aborts with a syntax error citing the 1-based line number
`k + 1`, whatever lines follow — no transition table is produced. -/
theorem claim_C5 (pre post : List (List Char)) (l : List Char)
    (st : ParseState)
    (hpre : parseLines initParseState 1 pre = .ok st)
    (hne : (pyStrip l).isEmpty = false)
    (hnc : ((pyStrip l).headD ' ' == '#') = false)
    (hre : regexMatch (pyStrip l) = none) :
    parse_turing_machine (pre ++ l :: post) = .error (pre.length + 1) := by
  unfold parse_turing_machine
  rw [parseLines_append pre (l :: post) initParseState 1, hpre]
  have hproc : processLine st (1 + pre.length) l = .error (1 + pre.length) := by
    simp only [processLine, hne, hnc, hre, Bool.false_eq_true, if_false]
  simp only [parseLines, hproc]
  rw [Nat.add_comm 1 pre.length]

/-- C5 witness: in the file `q0,a:b,>,q1`, `q1,b:<,q0`, `q0,a`, the third
line (missing `:`) is rejected and parsing aborts with a syntax error at
line 3. -/
theorem claim_C5_witness :
    parse_turing_machine [str "q0,a:b,>,q1", str "q1,b:<,q0", str "q0,a"] =
      .error 3 :=
  claim_C5 [str "q0,a:b,>,q1", str "q1,b:<,q0"] [] (str "q0,a") _ rfl rfl rfl rfl

lemma insertNew_isEmpty (x : List Char) (l : List (List Char)) :
    (insertNew x l).isEmpty = false := by
  unfold insertNew
  by_cases h : l.contains x = true
  · rw [if_pos h]
    cases l with
    | nil => simp [List.contains] at h
    | cons a as => rfl
  · rw [if_neg h]
    cases l with
    | nil => rfl
    | cons a as => rfl

lemma parseLines_initial_frozen :
    ∀ (lines : List (List Char)) (st : ParseState) (n : Nat)
      (st2 : ParseState), st.states.isEmpty = false →
      parseLines st n lines = .ok st2 →
      st2.initial_state = st.initial_state := by
  intro lines
  induction lines with
  | nil =>
      intro st n st2 hne h
      simp [parseLines] at h
      rw [← h]
  | cons l ls ih =>
      intro st n st2 hne h
      simp only [parseLines] at h
      cases hp : processLine st n l with
      | error e => simp [hp] at h
      | ok st3 =>
          simp only [hp] at h
          cases hb : (pyStrip l).isEmpty with
          | true =>
              have heq : st = st3 := by
                simpa [processLine, hb] using hp
              subst heq
              exact ih st (n + 1) st2 hne h
          | false =>
              cases hc : ((pyStrip l).headD ' ' == '#') with
              | true =>
                  have hc2 : (pyStrip l).head?.getD ' ' = '#' := by
                    simpa using hc
                  have heq : st = st3 := by
                    simpa [processLine, hb, hc2] using hp
                  subst heq
                  exact ih st (n + 1) st2 hne h
              | false =>
                  have hc2 : (pyStrip l).head?.getD ' ' ≠ '#' := by
                    simpa using hc
                  have hne2 : st.states ≠ [] := by
                    simpa using hne
                  cases hr : regexMatch (pyStrip l) with
                  | none => simp [processLine, hb, hc2, hr] at hp
                  | some r =>
                      simp [processLine, hb, hc2, hr] at hp
                      have e1 : st3.initial_state = st.initial_state := by
                        rw [← hp]
                        simp [hne2]
                      have e2 : st3.states.isEmpty = false := by
                        rw [← hp]
                        exact insertNew_isEmpty _ _
                      rw [ih st3 (n + 1) st2 e2 h, e1]

lemma parseLines_initial_first :
    ∀ (lines : List (List Char)) (st : ParseState) (n : Nat)
      (st2 : ParseState), st.states.isEmpty = true →
      st.initial_state = none →
      parseLines st n lines = .ok st2 →
      st2.initial_state = (firstValidRule lines).map (fun r => r.state_in) := by
  intro lines
  induction lines with
  | nil =>
      intro st n st2 h1 h2 h
      simp [parseLines] at h
      rw [← h, h2]
      simp [firstValidRule]
  | cons l ls ih =>
      intro st n st2 h1 h2 h
      simp only [parseLines] at h
      cases hp : processLine st n l with
      | error e => simp [hp] at h
      | ok st3 =>
          simp only [hp] at h
          cases hb : (pyStrip l).isEmpty with
          | true =>
              have heq : st = st3 := by
                simpa [processLine, hb] using hp
              subst heq
              rw [ih st (n + 1) st2 h1 h2 h]
              simp [firstValidRule, hb]
          | false =>
              cases hc : ((pyStrip l).headD ' ' == '#') with
              | true =>
                  have hc2 : (pyStrip l).head?.getD ' ' = '#' := by
                    simpa using hc
                  have heq : st = st3 := by
                    simpa [processLine, hb, hc2] using hp
                  subst heq
                  rw [ih st (n + 1) st2 h1 h2 h]
                  simp [firstValidRule, hb, hc2]
              | false =>
                  have hc2 : (pyStrip l).head?.getD ' ' ≠ '#' := by
                    simpa using hc
                  have h12 : st.states = [] := by
                    simpa using h1
                  cases hr : regexMatch (pyStrip l) with
                  | none => simp [processLine, hb, hc2, hr] at hp
                  | some r =>
                      simp [processLine, hb, hc2, hr] at hp
                      have e1 : st3.initial_state = some r.state_in := by
                        rw [← hp]
                        simp [h12]
                      have e2 : st3.states.isEmpty = false := by
                        rw [← hp]
                        exact insertNew_isEmpty _ _
                      rw [parseLines_initial_frozen ls st3 (n + 1) st2 e2 h, e1]
                      simp [firstValidRule, hb, hc2, hr]

/-- C3: the initial state the parser returns is the `state_in` of the first
non-blank, non-comment line (the moment the `states` set is still empty);
later lines never change it. -/
theorem claim_C3 (lines : List (List Char)) (st : ParseState)
    (h : parse_turing_machine lines = .ok st) :
    st.initial_state = (firstValidRule lines).map (fun r => r.state_in) := by
  unfold parse_turing_machine at h
  cases hp : parseLines initParseState 1 lines with
  | error e =>
      rw [hp] at h
      cases h
  | ok st0 =>
      rw [hp] at h
      simp only [Except.ok.injEq] at h
      rw [← h]
      have h0 := parseLines_initial_first lines initParseState 1 st0 rfl rfl hp
      simpa using h0

/-- C3 witness: for the two-line unary increment machine the recorded
initial state is `q0`, the `state_in` of the first rule line. -/
theorem claim_C3_witness :
    (ParseState.mk [str "q0", str "qf"] ['1'] (some (str "q0"))
        [((str "q0", '1'), ('1', some '>', str "q0")),
         ((str "q0", ' '), ('1', none, str "qf"))] []).initial_state =
      (firstValidRule [str "q0,1:>,q0", str "q0, :1,qf"]).map
        (fun r => r.state_in) :=
  claim_C3 [str "q0,1:>,q0", str "q0, :1,qf"] _ rfl

lemma map_skip_first {X : Option (Option Char × List Char)}
    {so mv : Option Char} {g5 : List Char}
    (h : X.map (fun p => ((none : Option Char), p.1, p.2)) = some (so, mv, g5)) :
    so = none := by
  cases X with
  | none => cases h
  | some p =>
      simp at h
      exact h.1.symm

/-- C1 amended: in an accepted tail after the colon, a lone `<` or `>`
token is assigned to `symbol_out` only if it IS immediately followed by
`,<` or `,>` (otherwise it is consumed as the direction field): whenever
the regex tail match returns an angle character as group 3, the tail must
start with that character, a comma, and another angle character. -/
theorem claim_C1_amended (r : List Char) (so mv : Option Char) (g5 : List Char)
    (c : Char) (h : matchTail1 r = some (so, mv, g5)) (hso : so = some c)
    (hang : isAngle c = true) :
    ∃ d r2, r = c :: ',' :: d :: r2 ∧ isAngle d = true := by
  subst hso
  rcases r with _ | ⟨c0, _ | ⟨c1, r2⟩⟩
  · rw [show matchTail1 [] =
        (matchTail2 []).map (fun p => (none, p.1, p.2)) from rfl] at h
    exact Option.noConfusion (map_skip_first h)
  · rw [show matchTail1 [c0] =
        (matchTail2 [c0]).map (fun p => (none, p.1, p.2)) from rfl] at h
    exact Option.noConfusion (map_skip_first h)
  · unfold matchTail1 at h
    dsimp only [] at h
    by_cases h1 : (c1 == ',') = true
    · rw [if_pos h1] at h
      by_cases h2 : isAngle c0 = true
      · rw [if_neg (by simp [h2])] at h
        rcases r2 with _ | ⟨d, r3⟩
        · exact Option.noConfusion (map_skip_first h)
        · dsimp only [] at h
          by_cases h3 : isAngle d = true
          · rw [if_pos h3] at h
            rcases hm : matchTail2 (d :: r3) with _ | ⟨mv9, g59⟩
            · rw [hm] at h
              exact Option.noConfusion (map_skip_first h)
            · rw [hm] at h
              simp at h
              obtain ⟨hc0, _, _⟩ := h
              subst hc0
              have hc1 : c1 = ',' := by simpa using h1
              subst hc1
              exact ⟨d, r3, rfl, h3⟩
          · rw [if_neg h3] at h
            exact Option.noConfusion (map_skip_first h)
      · rw [if_pos (by simp [Bool.not_eq_true] at h2; simp [h2])] at h
        rcases hm : matchTail2 r2 with _ | ⟨mv9, g59⟩
        · rw [hm] at h
          exact Option.noConfusion (map_skip_first h)
        · rw [hm] at h
          simp at h
          obtain ⟨hc0, _, _⟩ := h
          subst hc0
          exact absurd hang h2
    · rw [if_neg h1] at h
      exact Option.noConfusion (map_skip_first h)

/-- C1 amended witness: in the tail of line `q0,a:<,>,q1` the angle `<`
is followed by `,>`, so the regex assigns it to `symbol_out`, and the tail
indeed starts with an angle, a comma, and another angle. -/
theorem claim_C1_amended_witness :
    matchTail1 (str "<,>,q1") = some (some '<', some '>', str "q1") ∧
    ∃ d r2, str "<,>,q1" = '<' :: ',' :: d :: r2 ∧ isAngle d = true :=
  ⟨by decide,
   claim_C1_amended (str "<,>,q1") (some '<') (some '>') (str "q1") '<'
     (by decide) rfl (by decide)⟩

lemma tryAt_sound (s : List Char) (m : Nat) (r : ParsedRule) (hm : 0 < m)
    (h : tryAt s m = some r) :
    r.state_in ≠ [] ∧ (∀ c ∈ r.state_in, c ≠ '#') ∧
    ∃ tail, s = r.state_in ++ ',' :: r.symbol_in :: ':' :: tail := by
  unfold tryAt at h
  dsimp only [] at h
  by_cases hall : (s.take m).all (fun c => !(c == '#')) = true
  · rw [if_pos hall] at h
    rcases hd : s.drop m with _ | ⟨c1, _ | ⟨c, _ | ⟨c3, tail⟩⟩⟩
    · rw [hd] at h
      cases h
    · rw [hd] at h
      cases h
    · rw [hd] at h
      cases h
    · rw [hd] at h
      dsimp only [] at h
      by_cases hcond : (c1 == ',' && c3 == ':' && !(c == '\n')) = true
      · rw [if_pos hcond] at h
        rw [Option.map_eq_some'] at h
        obtain ⟨p, hp1, hp2⟩ := h
        subst hp2
        have hc1 : c1 = ',' := by
          have := hcond
          simp [Bool.and_eq_true] at this
          exact this.1.1
        have hc3 : c3 = ':' := by
          have := hcond
          simp [Bool.and_eq_true] at this
          exact this.1.2
        have hsplit : s = s.take m ++ c1 :: c :: c3 :: tail := by
          conv_lhs => rw [← List.take_append_drop m s]
          rw [hd]
        refine ⟨?_, ?_, ?_⟩
        · show s.take m ≠ []
          intro habs
          rcases List.take_eq_nil_iff.mp habs with h0 | h0
          · omega
          · rw [h0] at hd
            simp at hd
        · show ∀ x ∈ s.take m, x ≠ '#'
          intro x hx
          have := List.all_eq_true.mp hall x hx
          simpa using this
        · refine ⟨tail, ?_⟩
          show s = List.take m s ++ ',' :: c :: ':' :: tail
          conv_lhs => rw [hsplit]
          rw [hc1, hc3]
      · rw [if_neg hcond] at h
        cases h
  · rw [if_neg hall] at h
    cases h

lemma tryG1_sound (s : List Char) :
    ∀ (k : Nat) (r : ParsedRule), tryG1 s k = some r →
      r.state_in ≠ [] ∧ (∀ c ∈ r.state_in, c ≠ '#') ∧
      ∃ tail, s = r.state_in ++ ',' :: r.symbol_in :: ':' :: tail := by
  intro k
  induction k with
  | zero =>
      intro r h
      simp [tryG1] at h
  | succ k ih =>
      intro r h
      simp only [tryG1] at h
      cases ha : tryAt s (k + 1) with
      | some r0 =>
          rw [ha] at h
          dsimp only [] at h
          have : r0 = r := by
            injection h
          subst this
          exact tryAt_sound s (k + 1) r0 (Nat.succ_pos k) ha
      | none =>
          rw [ha] at h
          dsimp only [] at h
          exact ih r h

/-- C2 amended: `state_in` is a nonempty run of non-`#` characters that is
a prefix of the line followed by `,`, a single character, and `:` — chosen
greedily, i.e. it is the longest such prefix for which the remainder
completes the pattern, so it may extend beyond the first `,` and state
names may contain `,` (and, via `state_out`, also `:`). -/
theorem claim_C2_amended (s : List Char) (r : ParsedRule)
    (h : regexMatch s = some r) :
    r.state_in ≠ [] ∧ (∀ c ∈ r.state_in, c ≠ '#') ∧
    ∃ tail, s = r.state_in ++ ',' :: r.symbol_in :: ':' :: tail :=
  tryG1_sound s s.length r h

/-- C2 amended witness: on the line `a,b,c:d,q0` the parsed `state_in` is
`a,b` — a nonempty `#`-free prefix followed by `,`, one character, `:` —
extending past the first comma. -/
theorem claim_C2_amended_witness :
    str "a,b" ≠ [] ∧ (∀ c ∈ str "a,b", c ≠ '#') ∧
    ∃ tail, str "a,b,c:d,q0" = str "a,b" ++ ',' :: 'c' :: ':' :: tail :=
  claim_C2_amended (str "a,b,c:d,q0")
    ⟨str "a,b", 'c', some 'd', none, str "q0"⟩ (by decide)

end TuringSim
